import Mathlib

/-!
Shallow embedding of `tdb.py`, a library for the Tdb "Text DataBase" format,
together with theorems settling the specification claims.

Text is modelled as `List Char`; Python exceptions are modelled by the
`Except PyErr` monad.  The fueled loops below are supplied with fuel
`text.length + 1` by their wrappers; every loop iteration of the source
consumes at least one character of the remaining text, so this fuel is never
exhausted on the wrappers' own calls.
-/

/-- Errors.  `tdbError` embeds the source's single `Error(Exception)` class
(`tdb.Error`, raised with a message).  `typeError` and `pyError` embed Python
runtime errors (`TypeError`, `IndexError`, uncaught `ValueError`, attribute
errors) that the source does not catch. -/
inductive PyErr where
  | tdbError (msg : String)
  | typeError (msg : String)
  | pyError (msg : String)
deriving DecidableEq, Repr

/-- The ASCII whitespace characters recognised by Python's `str.isspace` and
`str.split` (the only whitespace reachable in this codec's inputs). -/
def isPySpace (c : Char) : Bool :=
  c = ' ' || c = '\t' || c = '\n' || c = '\r' || c = '\x0b' || c = '\x0c'

/-- Number of newline characters in a chunk of text (Python `text.count('\n')`). -/
def countNl (l : List Char) : Nat := l.count '\n'

/-- Split at the first occurrence of `what` (Python `text.find(what)` plus the
slices `text[:end]` and `text[end+1:]`); `none` when `what` does not occur. -/
def findSplit : List Char → Char → Option (List Char × List Char)
  | [], _ => none
  | c :: cs, w =>
    if c = w then some ([], cs)
    else
      match findSplit cs w with
      | none => none
      | some (pre, post) => some (c :: pre, post)

/-- A calendar date (`datetime.date`). -/
structure Date where
  year : Nat
  month : Nat
  day : Nat
deriving DecidableEq, Repr

/-- A timestamp (`datetime.datetime`); `tzSeconds` is the UTC-offset of an
aware value in seconds, `none` for a naive value. -/
structure DateTime where
  date : Date
  hour : Nat
  minute : Nat
  second : Nat
  tzSeconds : Option Int
deriving DecidableEq, Repr

/-- A parsed field value.  `real` values are modelled as exact rationals; the
claims proved below never depend on binary floating-point rounding. -/
inductive Value where
  | bool (b : Bool)
  | bytes (bs : List Nat)
  | date (d : Date)
  | datetime (dt : DateTime)
  | int (i : Int)
  | real (r : Rat)
  | str (s : String)
deriving DecidableEq, Repr

def BYTES_SENTINAL : List Nat := [4]

def DATE_SENTINAL : Date := ⟨1808, 8, 8⟩

def DATETIME_SENTINAL : DateTime := ⟨⟨1808, 8, 8⟩, 8, 8, 8, none⟩

def INT_SENTINAL : Int := -1808080808

def REAL_SENTINAL : Rat := -1808080808.0808

def STR_SENTINAL : String := "\x04"

/-- Python `repr` of a short string whose characters need no escaping (true of
every token the scanner can produce here: their alphabets contain no quote,
backslash or control character). -/
def pyRepr (s : String) : String := "\x27" ++ s ++ "\x27"

/-- Models `xml.sax.saxutils.unescape` with its default entity table: replaces
the three entities `&lt;` `&gt;` `&amp;`, scanning left to right. -/
def pyUnescape : List Char → List Char
  | '&' :: 'l' :: 't' :: ';' :: rest => '<' :: pyUnescape rest
  | '&' :: 'g' :: 't' :: ';' :: rest => '>' :: pyUnescape rest
  | '&' :: 'a' :: 'm' :: 'p' :: ';' :: rest => '&' :: pyUnescape rest
  | c :: rest => c :: pyUnescape rest
  | [] => []

def hexVal (c : Char) : Option Nat :=
  if '0' ≤ c ∧ c ≤ '9' then some (c.toNat - 48)
  else if 'a' ≤ c ∧ c ≤ 'f' then some (c.toNat - 87)
  else if 'A' ≤ c ∧ c ≤ 'F' then some (c.toNat - 55)
  else none

/-- Models `bytes.fromhex`: pairs of hex digits, with spaces permitted between
pairs; odd grouping or a non-hex character yields `none` (Python raises
`ValueError`, which `_handle_bytes` does not catch). -/
def bytesFromHex : List Char → Option (List Nat)
  | [] => some []
  | ' ' :: rest => bytesFromHex rest
  | c1 :: c2 :: rest =>
    match hexVal c1, hexVal c2, bytesFromHex rest with
    | some h, some l, some bs => some ((16 * h + l) :: bs)
    | _, _, _ => none
  | _ => none

def digitsToNat (l : List Char) : Nat :=
  l.foldl (fun acc c => 10 * acc + (c.toNat - 48)) 0

/-- A non-empty all-digit token, as required by Python `int` after the sign. -/
def digitsOnly (l : List Char) : Option Nat :=
  if l ≠ [] ∧ l.all Char.isDigit then some (digitsToNat l) else none

/-- Models Python `int(found)` on tokens drawn from `'-+0123456789'`:
an optional single sign followed by at least one digit. -/
def pyIntOfString (cs : List Char) : Option Int :=
  match cs with
  | '+' :: r => (digitsOnly r).map Int.ofNat
  | '-' :: r => (digitsOnly r).map (fun n => -(n : Int))
  | _ => (digitsOnly cs).map Int.ofNat

def takeDigits : List Char → List Char × List Char
  | [] => ([], [])
  | c :: cs =>
    if c.isDigit then
      match takeDigits cs with
      | (d, r) => (c :: d, r)
    else ([], c :: cs)

/-- The exact rational denoted by a decimal literal
`sign ip . fp e exp10` (used to give `float` tokens a value). -/
def decimalRat (sign : Int) (ip fp : List Char) (e : Int) : Rat :=
  ((sign * ((digitsToNat ip : Int) * 10 ^ fp.length + (digitsToNat fp : Int)) : Int) : Rat)
    * (10 : Rat) ^ (e - (fp.length : Int))

def pyFloatExpPart (sign : Int) (ip fp : List Char) (cs : List Char) : Option Rat :=
  match cs with
  | [] => some (decimalRat sign ip fp 0)
  | e :: r =>
    if e = 'e' ∨ e = 'E' then
      let (esign, r1) : Int × List Char :=
        match r with
        | '+' :: rr => (1, rr)
        | '-' :: rr => (-1, rr)
        | _ => (1, r)
      match takeDigits r1 with
      | (ed, r2) =>
        if ed.isEmpty ∨ ¬ r2.isEmpty then none
        else some (decimalRat sign ip fp (esign * (digitsToNat ed : Int)))
    else none

/-- Models Python `float(found)` on tokens drawn from `'-+0123456789.eE'`:
`[sign] (digits [. digits] | . digits) [(e|E) [sign] digits]`, valued as an
exact rational (overflow to infinity is unreachable in the proved claims). -/
def pyFloatOfString (cs : List Char) : Option Rat :=
  let (sign, cs1) : Int × List Char :=
    match cs with
    | '+' :: r => (1, r)
    | '-' :: r => (-1, r)
    | _ => (1, cs)
  match takeDigits cs1 with
  | (ip, cs2) =>
    match cs2 with
    | '.' :: r =>
      match takeDigits r with
      | (fp, cs3) =>
        if ip.isEmpty ∧ fp.isEmpty then none
        else pyFloatExpPart sign ip fp cs3
    | _ => if ip.isEmpty then none else pyFloatExpPart sign ip [] cs2

def isLeap (y : Nat) : Bool := y % 4 = 0 && (y % 100 ≠ 0 || y % 400 = 0)

def daysInMonth (y m : Nat) : Nat :=
  if m = 2 then (if isLeap y then 29 else 28)
  else if m = 4 ∨ m = 6 ∨ m = 9 ∨ m = 11 then 30
  else if 1 ≤ m ∧ m ≤ 12 then 31
  else 0

/-- Models CPython 3.10 `datetime.date.fromisoformat`: exactly `YYYY-MM-DD`
with a valid proleptic-Gregorian calendar date, year 1–9999. -/
def dateFromIso (cs : List Char) : Option Date :=
  match cs with
  | [y1, y2, y3, y4, s1, m1, m2, s2, d1, d2] =>
    if y1.isDigit && y2.isDigit && y3.isDigit && y4.isDigit && s1 = '-'
        && m1.isDigit && m2.isDigit && s2 = '-' && d1.isDigit && d2.isDigit then
      let y := digitsToNat [y1, y2, y3, y4]
      let m := digitsToNat [m1, m2]
      let d := digitsToNat [d1, d2]
      if 1 ≤ y ∧ 1 ≤ m ∧ m ≤ 12 ∧ 1 ≤ d ∧ d ≤ daysInMonth y m then
        some ⟨y, m, d⟩
      else none
    else none
  | _ => none

/-- The `HH[:MM[:SS]]` component grammar of CPython 3.10's iso time parsing
(a fractional part needs `.`, which the record scanner's alphabet excludes). -/
def parseHMS (l : List Char) : Option (Nat × Nat × Nat) :=
  match l with
  | [h1, h2] =>
    if h1.isDigit && h2.isDigit then some (digitsToNat [h1, h2], 0, 0) else none
  | [h1, h2, ':', m1, m2] =>
    if h1.isDigit && h2.isDigit && m1.isDigit && m2.isDigit then
      some (digitsToNat [h1, h2], digitsToNat [m1, m2], 0)
    else none
  | [h1, h2, ':', m1, m2, ':', s1, s2] =>
    if h1.isDigit && h2.isDigit && m1.isDigit && m2.isDigit
        && s1.isDigit && s2.isDigit then
      some (digitsToNat [h1, h2], digitsToNat [m1, m2], digitsToNat [s1, s2])
    else none
  | _ => none

/-- The time-of-day part of CPython 3.10 `datetime.fromisoformat`: an optional
UTC offset is introduced by the first `-` or `+` in the time string. -/
def parseIsoTime (tstr : List Char) : Option (Nat × Nat × Nat × Option Int) :=
  let split : Option (Int × List Char × List Char) :=
    match findSplit tstr '-' with
    | some (a, b) => some (-1, a, b)
    | none =>
      match findSplit tstr '+' with
      | some (a, b) => some (1, a, b)
      | none => none
  match split with
  | none => (parseHMS tstr).map (fun hms => (hms.1, hms.2.1, hms.2.2, none))
  | some (sign, timestr, tzstr) =>
    if tzstr.length = 5 ∨ tzstr.length = 8 ∨ tzstr.length = 15 then
      match parseHMS timestr, parseHMS tzstr with
      | some hms, some tz =>
        let off : Int := sign * ((tz.1 : Int) * 3600 + (tz.2.1 : Int) * 60 + (tz.2.2 : Int))
        if off < 86400 ∧ -86400 < off then
          some (hms.1, hms.2.1, hms.2.2, some off)
        else none
      | _, _ => none
    else none

/-- Models CPython 3.10 `datetime.datetime.fromisoformat` (restricted to the
scanner's alphabet `-0-9T:`): the first ten characters are the date, character
ten — when present — is an arbitrary separator, and the rest is the time. -/
def datetimeFromIso (cs : List Char) : Option DateTime :=
  match dateFromIso (cs.take 10) with
  | none => none
  | some d =>
    let tstr := cs.drop 11
    if tstr.isEmpty then some ⟨d, 0, 0, 0, none⟩
    else
      match parseIsoTime tstr with
      | none => none
      | some (h, m, s, tz) =>
        if h ≤ 23 ∧ m ≤ 59 ∧ s ≤ 59 then some ⟨d, h, m, s, tz⟩ else none

/-- A field declaration; mirrors the source's `MetaField` class.  The `kind`
is kept as an unvalidated string, exactly as in `_read_meta`. -/
structure MetaField where
  name : String
  kind : String
deriving DecidableEq, Repr

/-- A table; mirrors the source's `Table` class.  Records are fixed-width
editable tuples whose slots start out unset (`none`), so a record is a list of
`Option Value` of length `columns`. -/
structure Table where
  name : Option String
  fields_meta : List MetaField
  records : List (List (Option Value))
deriving DecidableEq, Repr

def Table.columns (t : Table) : Nat := t.fields_meta.length

def Table.append (t : Table) (r : List (Option Value)) : Table :=
  { t with records := t.records ++ [r] }

/-- The database object; its `tables` model the source's insertion-ordered
`dict` of tables keyed by name. -/
structure Tdb where
  tables : List Table
deriving DecidableEq, Repr

/-- Models `_find`: locate `what`, fail with `Error(f'{lino}#{message}')` when
absent, else return the prefix, the suffix past `what`, and the line count
advanced by the newlines of the prefix. -/
def _find (text : List Char) (what : Char) (message : String) (lino : Nat) :
    Except PyErr (List Char × List Char × Nat) :=
  match findSplit text what with
  | none => .error (.tdbError (toString lino ++ "#" ++ message))
  | some (pre, post) => .ok (pre, post, lino + countNl pre)

/-- Models `_skip_ws`: drop leading whitespace, counting newlines. -/
def _skip_ws : List Char → Nat → List Char × Nat
  | [], lino => ([], lino)
  | c :: cs, lino =>
    if isPySpace c then _skip_ws cs (if c = '\n' then lino + 1 else lino)
    else (c :: cs, lino)

def scanAux : List Char → List Char → Nat → List Char →
    Except PyErr (List Char × List Char × Nat)
  | [], _, lino, _ => .error (.tdbError (toString lino ++ "#unexpected end of data"))
  | c :: cs, valid, lino, acc =>
    if valid.contains c then scanAux cs valid lino (c :: acc)
    else .ok (c :: cs, acc.reverse, lino)

/-- Models `_scan`: skip whitespace then take the longest run of characters
from `valid`; reaching end-of-input while still inside the run is the
`unexpected end of data` error.  Returns `(rest, found, lino)`. -/
def _scan (text : List Char) (valid : List Char) (lino : Nat) :
    Except PyErr (List Char × List Char × Nat) :=
  match _skip_ws text lino with
  | (text1, lino1) => scanAux text1 valid lino1 []

/-- Models Python `str.split()` (no argument): split on whitespace runs,
discarding empty pieces. -/
def splitWsAux : List Char → List Char → List String
  | [], acc => if acc.isEmpty then [] else [String.mk acc.reverse]
  | c :: cs, acc =>
    if isPySpace c then
      if acc.isEmpty then splitWsAux cs []
      else String.mk acc.reverse :: splitWsAux cs []
    else splitWsAux cs (c :: acc)

def splitWs (cs : List Char) : List String := splitWsAux cs []

/-- The field-pairing loop of `_read_meta`: tokens after the table name are
taken as alternating field-name/kind pairs; a trailing unmatched name is
silently dropped (the loop's `field_name` is never flushed). -/
def pairFields : List String → List MetaField
  | n :: k :: rest => ⟨n, k⟩ :: pairFields rest
  | _ => []

/-- Models `_read_meta`: everything before the first `%` is split on
whitespace into the table name and the field pairs; no further validation is
performed.  Returns the text after `%`, the fresh table, and `lino + 1`. -/
def _read_meta (text : List Char) (lino : Nat) :
    Except PyErr (List Char × Table × Nat) :=
  match _find text '%' "expected to find \x22%\x22" lino with
  | .error e => .error e
  | .ok (found, text1, lino1) =>
    let parts := splitWs found
    .ok (text1, ⟨parts.head?, pairFields (parts.drop 1), []⟩, lino1 + 1)

/-- Models `_handle_sentinel`: a `bool` column rejects the sentinel; every
other kind (any unrecognised kind falls into the final `str` arm, as in the
source's `else`) stores its sentinel constant at the current column. -/
def _handle_sentinel (kind : String) (record : List (Option Value))
    (column lino : Nat) : Except PyErr (List (Option Value)) :=
  if kind = "bool" then
    .error (.tdbError (toString lino ++ "#bool fields don\x27t allow sentinals"))
  else if kind = "bytes" then .ok (record.set column (some (.bytes BYTES_SENTINAL)))
  else if kind = "date" then .ok (record.set column (some (.date DATE_SENTINAL)))
  else if kind = "datetime" then .ok (record.set column (some (.datetime DATETIME_SENTINAL)))
  else if kind = "int" then .ok (record.set column (some (.int INT_SENTINAL)))
  else if kind = "real" then .ok (record.set column (some (.real REAL_SENTINAL)))
  else .ok (record.set column (some (.str STR_SENTINAL)))

/-- Models `_handle_bool`. -/
def _handle_bool (kind : String) (value : Bool) (record : List (Option Value))
    (column lino : Nat) : Except PyErr (List (Option Value)) :=
  if kind ≠ "bool" then
    .error (.tdbError (toString lino ++ "#expected type " ++ kind ++ ", got a bool"))
  else .ok (record.set column (some (.bool value)))

/-- Models `_handle_bytes` (called on the text just past `(`).  A hex-decoding
failure is an uncaught Python `ValueError` in the source. -/
def _handle_bytes (kind : String) (text : List Char) (record : List (Option Value))
    (column lino : Nat) : Except PyErr (List Char × List (Option Value) × Nat) :=
  if kind ≠ "bytes" then
    .error (.tdbError (toString lino ++ "#expected type " ++ kind ++ ", got a bytes"))
  else
    match _find text ')' "expected to find \x22)\x22" lino with
    | .error e => .error e
    | .ok (found, text1, lino1) =>
      match bytesFromHex found with
      | none => .error (.pyError "ValueError: non-hexadecimal number found in fromhex() arg")
      | some bs => .ok (text1, record.set column (some (.bytes bs)), lino1)

/-- Models `_handle_str` (called on the text just past `<`). -/
def _handle_str (kind : String) (text : List Char) (record : List (Option Value))
    (column lino : Nat) : Except PyErr (List Char × List (Option Value) × Nat) :=
  if kind ≠ "str" then
    .error (.tdbError (toString lino ++ "#expected type " ++ kind ++ ", got a str"))
  else
    match _find text '>' "expected to find \x22>\x22" lino with
    | .error e => .error e
    | .ok (found, text1, lino1) =>
      .ok (text1, record.set column (some (.str (String.mk (pyUnescape found)))), lino1)

/-- Models `_handle_int`. -/
def _handle_int (text : List Char) (record : List (Option Value))
    (column lino : Nat) : Except PyErr (List Char × List (Option Value) × Nat) :=
  match _scan text "-+0123456789".toList lino with
  | .error e => .error e
  | .ok (text1, found, lino1) =>
    match pyIntOfString found with
    | some i => .ok (text1, record.set column (some (.int i)), lino1)
    | none =>
      let fs := pyRepr (String.mk found)
      .error (.tdbError (toString lino1 ++ "#invalid int: " ++ fs
        ++ ": invalid literal for int() with base 10: " ++ fs))

/-- Models `_handle_real`. -/
def _handle_real (text : List Char) (record : List (Option Value))
    (column lino : Nat) : Except PyErr (List Char × List (Option Value) × Nat) :=
  match _scan text "-+0123456789.eE".toList lino with
  | .error e => .error e
  | .ok (text1, found, lino1) =>
    match pyFloatOfString found with
    | some r => .ok (text1, record.set column (some (.real r)), lino1)
    | none =>
      let fs := pyRepr (String.mk found)
      .error (.tdbError (toString lino1 ++ "#invalid real: " ++ fs
        ++ ": could not convert string to float: " ++ fs))

/-- Models `_handle_date`. -/
def _handle_date (text : List Char) (record : List (Option Value))
    (column lino : Nat) : Except PyErr (List Char × List (Option Value) × Nat) :=
  match _scan text "-0123456789".toList lino with
  | .error e => .error e
  | .ok (text1, found, lino1) =>
    match dateFromIso found with
    | some d => .ok (text1, record.set column (some (.date d)), lino1)
    | none =>
      let fs := pyRepr (String.mk found)
      .error (.tdbError (toString lino1 ++ "#invalid date: " ++ fs
        ++ ": Invalid isoformat string: " ++ fs))

/-- Models `_handle_datetime`. -/
def _handle_datetime (text : List Char) (record : List (Option Value))
    (column lino : Nat) : Except PyErr (List Char × List (Option Value) × Nat) :=
  match _scan text "-0123456789T:".toList lino with
  | .error e => .error e
  | .ok (text1, found, lino1) =>
    match datetimeFromIso found with
    | some dt => .ok (text1, record.set column (some (.datetime dt)), lino1)
    | none =>
      let fs := pyRepr (String.mk found)
      .error (.tdbError (toString lino1 ++ "#invalid datetime: " ++ fs
        ++ ": Invalid isoformat string: " ++ fs))

/-- Outcome of one iteration of the `_read_records` loop: `done` is the
`return` in the `]` branch, `more` continues the loop with the updated state. -/
inductive ScanOut where
  | done (rest : List Char) (table : Table) (lino : Nat)
  | more (text : List Char) (table : Table) (record : Option (List (Option Value)))
      (column : Nat) (lino : Nat)
deriving DecidableEq, Repr

/-- The per-character dispatch of one `_read_records` loop iteration, after
the in-progress record has been ensured: the current column's kind is fetched
(`IndexError` when the table has no columns) and lookahead `c` is dispatched
exactly as in the source's `if`/`elif` chain.  The loop-bottom
`if column == columns` append of the source is the `if col2 = ...` in
`fin`. -/
def dispatchChar (c : Char) (rest : List Char) (table : Table)
    (record : List (Option Value)) (column lino : Nat) :
    Except PyErr ScanOut :=
  match table.fields_meta.get? column with
    | none => .error (.pyError "IndexError: list index out of range")
    | some mf =>
      let kind := mf.kind
      let columns := table.columns
      let fin : Nat → List (Option Value) → List Char → Nat → ScanOut :=
        fun col2 r2 text2 lino2 =>
          if col2 = columns then .more text2 (table.append r2) none col2 lino2
          else .more text2 table (some r2) col2 lino2
      if c = '\n' then .ok (fin column record rest (lino + 1))
      else if c = ' ' ∨ c = '\t' ∨ c = '\r' then .ok (fin column record rest lino)
      else if c = '!' then
        match _handle_sentinel kind record column lino with
        | .error e => .error e
        | .ok r2 => .ok (fin (column + 1) r2 rest lino)
      else if ['F', 'f', 'N', 'n'].contains c then
        match _handle_bool kind false record column lino with
        | .error e => .error e
        | .ok r2 => .ok (fin (column + 1) r2 rest lino)
      else if ['T', 't', 'Y', 'y'].contains c then
        match _handle_bool kind true record column lino with
        | .error e => .error e
        | .ok r2 => .ok (fin (column + 1) r2 rest lino)
      else if c = '(' then
        match _handle_bytes kind rest record column lino with
        | .error e => .error e
        | .ok (text2, r2, lino2) => .ok (fin (column + 1) r2 text2 lino2)
      else if c = '<' then
        match _handle_str kind rest record column lino with
        | .error e => .error e
        | .ok (text2, r2, lino2) => .ok (fin (column + 1) r2 text2 lino2)
      else if c = '-' then
        if kind = "int" then
          match _handle_int (c :: rest) record column lino with
          | .error e => .error e
          | .ok (text2, r2, lino2) => .ok (fin (column + 1) r2 text2 lino2)
        else if kind = "real" then
          match _handle_real (c :: rest) record column lino with
          | .error e => .error e
          | .ok (text2, r2, lino2) => .ok (fin (column + 1) r2 text2 lino2)
        else .error (.tdbError (toString lino ++ "#expected an " ++ kind))
      else if "0123456789".toList.contains c then
        if kind = "int" then
          match _handle_int (c :: rest) record column lino with
          | .error e => .error e
          | .ok (text2, r2, lino2) => .ok (fin (column + 1) r2 text2 lino2)
        else if kind = "real" then
          match _handle_real (c :: rest) record column lino with
          | .error e => .error e
          | .ok (text2, r2, lino2) => .ok (fin (column + 1) r2 text2 lino2)
        else if kind = "date" then
          match _handle_date (c :: rest) record column lino with
          | .error e => .error e
          | .ok (text2, r2, lino2) => .ok (fin (column + 1) r2 text2 lino2)
        else if kind = "datetime" then
          match _handle_datetime (c :: rest) record column lino with
          | .error e => .error e
          | .ok (text2, r2, lino2) => .ok (fin (column + 1) r2 text2 lino2)
        else .error (.tdbError (toString lino ++ "#expected an " ++ kind))
      else if c = ']' then
        if 0 < column ∧ column < columns then
          .error (.tdbError (toString lino ++ "#incomplete record "
            ++ toString (column + 1) ++ "/" ++ toString columns ++ " fields"))
        else
          match _skip_ws rest lino with
          | (text2, lino2) => .ok (.done text2 table lino2)
      else
        .error (.tdbError (toString lino ++ "#invalid character "
          ++ pyRepr (String.mk [c])))

/-- One iteration of the `_read_records` loop of the source, on lookahead `c`
with remaining text `rest`.  A `none` in-progress record triggers the lazy
`record = table.RecordClass()` (a `TypeError` when the table is nameless,
since the generated tuple class needs a string name) and resets the column;
the iteration then proceeds with `dispatchChar`. -/
def recScanStep (c : Char) (rest : List Char) (table : Table)
    (record? : Option (List (Option Value))) (column0 lino : Nat) :
    Except PyErr ScanOut :=
  match record? with
  | some r => dispatchChar c rest table r column0 lino
  | none =>
    match table.name with
    | none => .error (.pyError "TypeError: editabletuple() classname must be a str")
    | some _ => dispatchChar c rest table (List.replicate table.columns none) 0 lino

/-- The `while text:` loop of `_read_records`, driven by `recScanStep`. -/
def readRecordsAux : Nat → List Char → Table → Option (List (Option Value)) →
    Nat → Nat → Except PyErr (List Char × Table × Nat)
  | 0, _, _, _, _, _ => .error (.pyError "fuel exhausted")
  | _ + 1, [], table, _, _, lino => .ok ([], table, lino)
  | fuel + 1, c :: rest, table, record?, column, lino =>
    match recScanStep c rest table record? column lino with
    | .error e => .error e
    | .ok (.done text2 t2 lino2) => .ok (text2, t2, lino2)
    | .ok (.more text2 t2 r2 c2 lino2) => readRecordsAux fuel text2 t2 r2 c2 lino2

/-- Models `_read_records`; each loop iteration consumes at least one input
character, so `text.length + 1` fuel is never exhausted. -/
def _read_records (text : List Char) (table : Table) (lino : Nat) :
    Except PyErr (List Char × Table × Nat) :=
  readRecordsAux (text.length + 1) text table none 0 lino

/-- Models `tables[table.name] = table` on the insertion-ordered Python dict:
replacement keeps the original position, a new key is appended. -/
def insertTable (tables : List Table) (t : Table) : List Table :=
  if tables.any (fun u => u.name == t.name) then
    tables.map (fun u => if u.name == t.name then t else u)
  else tables ++ [t]

/-- The `while text:` loop of `_read_tdb`.  Records reached with no table in
scope hit `table.columns` on `None` — an uncaught `AttributeError`. -/
def readTdbAux : Nat → List Char → List Table → Option Table → Nat →
    Except PyErr (List Table)
  | 0, _, _, _, _ => .error (.pyError "fuel exhausted")
  | _ + 1, [], tables, _, _ => .ok tables
  | fuel + 1, c :: rest, tables, table?, lino =>
    if c = '\n' then readTdbAux fuel rest tables table? (lino + 1)
    else if c = '[' then
      match _read_meta rest lino with
      | .error e => .error e
      | .ok (text2, t, lino2) => readTdbAux fuel text2 (insertTable tables t) (some t) lino2
    else
      match table? with
      | none =>
        .error (.pyError
          ("AttributeError: " ++ "\x27NoneType\x27 object has no attribute \x27columns\x27"))
      | some t =>
        match _read_records (c :: rest) t lino with
        | .error e => .error e
        | .ok (text2, t2, lino2) =>
          readTdbAux fuel text2 (insertTable tables t2) (some t2) lino2

/-- Models `_read_tdb`. -/
def _read_tdb (text : List Char) : Except PyErr (List Table) :=
  readTdbAux (text.length + 1) text [] none 1

/-- Models the module-level `loads`. -/
def loads (text : String) : Except PyErr Tdb :=
  match _read_tdb text.toList with
  | .error e => .error e
  | .ok tables => .ok ⟨tables⟩

/-- Models `_write_tdb`.  The source's loop body is `pass` (a TODO stub): it
iterates the tables and writes nothing, so the emitted text is empty. -/
def _write_tdb (tables : List Table) (decimals : Int) : String := ""

/-- Models a call of `Tdb.dump(self, filename_or_filelike, *, decimals=-1)`
made with `npositional` positional arguments after `self`.  Because
`decimals` is keyword-only, Python's call binding raises `TypeError` when
more than one positional argument is supplied; otherwise `dump` normalises
`decimals` and writes via `_write_tdb`. -/
def Tdb.dumpCall (db : Tdb) (npositional : Nat) (decimals : Int) :
    Except PyErr String :=
  if npositional > 1 then
    .error (.typeError "Tdb.dump() takes 2 positional arguments but 3 were given")
  else
    let decimals := if 1 ≤ decimals ∧ decimals ≤ 19 then decimals else -1
    .ok (_write_tdb db.tables decimals)

/-- Models `Tdb.dumps`: the source executes `self.dump(stream, decimals)`,
passing both the stream and `decimals` positionally. -/
def Tdb.dumps (db : Tdb) (decimals : Int) : Except PyErr String :=
  db.dumpCall 2 decimals

/-- Completed records of a table have full width and every slot assigned. -/
def recordComplete (t : Table) : Prop :=
  ∀ r ∈ t.records, r.length = t.columns ∧ ∀ o ∈ r, o.isSome

/-- Invariant of the in-progress record: full width, all slots below the
current column assigned. -/
def inFlight (t : Table) : Option (List (Option Value)) → Nat → Prop
  | none, _ => True
  | some r, column => r.length = t.columns ∧ ∀ i < column, ∃ v, r.get? i = some (some v)

/-- What one loop iteration guarantees: a finished (`done`) table, or the
continued state, keeps all completed records full. -/
def scanOutOk : ScanOut → Prop
  | .done _ t _ => recordComplete t
  | .more _ t r c _ => recordComplete t ∧ inFlight t r c

theorem handle_sentinel_shape {kind : String} {r : List (Option Value)}
    {column lino : Nat} {r2 : List (Option Value)}
    (h : _handle_sentinel kind r column lino = .ok r2) :
    ∃ v, r2 = r.set column (some v) := by
  unfold _handle_sentinel at h
  split_ifs at h <;> simp only [Except.ok.injEq] at h <;> exact ⟨_, h.symm⟩

theorem handle_bool_shape {kind : String} {b : Bool} {r : List (Option Value)}
    {column lino : Nat} {r2 : List (Option Value)}
    (h : _handle_bool kind b r column lino = .ok r2) :
    ∃ v, r2 = r.set column (some v) := by
  unfold _handle_bool at h
  split_ifs at h
  simp only [Except.ok.injEq] at h
  exact ⟨_, h.symm⟩

theorem handle_bytes_shape {kind : String} {text : List Char}
    {r : List (Option Value)} {column lino : Nat}
    {out : List Char × List (Option Value) × Nat}
    (h : _handle_bytes kind text r column lino = .ok out) :
    ∃ v, out.2.1 = r.set column (some v) := by
  obtain ⟨t2, r2, l2⟩ := out
  unfold _handle_bytes at h
  split_ifs at h
  rcases h1 : _find text ')' "expected to find \x22)\x22" lino with e | ⟨found, text1, lino1⟩
  · simp only [h1] at h
    exact Except.noConfusion h
  · simp only [h1] at h
    rcases h2 : bytesFromHex found with _ | bs
    · simp only [h2] at h
      exact Except.noConfusion h
    · simp only [h2, Except.ok.injEq, Prod.mk.injEq] at h
      exact ⟨_, h.2.1.symm⟩

theorem handle_str_shape {kind : String} {text : List Char}
    {r : List (Option Value)} {column lino : Nat}
    {out : List Char × List (Option Value) × Nat}
    (h : _handle_str kind text r column lino = .ok out) :
    ∃ v, out.2.1 = r.set column (some v) := by
  obtain ⟨t2, r2, l2⟩ := out
  unfold _handle_str at h
  split_ifs at h
  rcases h1 : _find text '>' "expected to find \x22>\x22" lino with e | ⟨found, text1, lino1⟩
  · simp only [h1] at h
    exact Except.noConfusion h
  · simp only [h1] at h
    simp only [Except.ok.injEq, Prod.mk.injEq] at h
    exact ⟨_, h.2.1.symm⟩

theorem handle_int_shape {text : List Char} {r : List (Option Value)}
    {column lino : Nat} {out : List Char × List (Option Value) × Nat}
    (h : _handle_int text r column lino = .ok out) :
    ∃ v, out.2.1 = r.set column (some v) := by
  obtain ⟨t2, r2, l2⟩ := out
  unfold _handle_int at h
  rcases h1 : _scan text "-+0123456789".toList lino with e | ⟨text1, found, lino1⟩
  · simp only [h1] at h
    exact Except.noConfusion h
  · simp only [h1] at h
    rcases h2 : pyIntOfString found with _ | x
    · simp only [h2] at h
      exact Except.noConfusion h
    · simp only [h2, Except.ok.injEq, Prod.mk.injEq] at h
      exact ⟨_, h.2.1.symm⟩

theorem handle_real_shape {text : List Char} {r : List (Option Value)}
    {column lino : Nat} {out : List Char × List (Option Value) × Nat}
    (h : _handle_real text r column lino = .ok out) :
    ∃ v, out.2.1 = r.set column (some v) := by
  obtain ⟨t2, r2, l2⟩ := out
  unfold _handle_real at h
  rcases h1 : _scan text "-+0123456789.eE".toList lino with e | ⟨text1, found, lino1⟩
  · simp only [h1] at h
    exact Except.noConfusion h
  · simp only [h1] at h
    rcases h2 : pyFloatOfString found with _ | x
    · simp only [h2] at h
      exact Except.noConfusion h
    · simp only [h2, Except.ok.injEq, Prod.mk.injEq] at h
      exact ⟨_, h.2.1.symm⟩

theorem handle_date_shape {text : List Char} {r : List (Option Value)}
    {column lino : Nat} {out : List Char × List (Option Value) × Nat}
    (h : _handle_date text r column lino = .ok out) :
    ∃ v, out.2.1 = r.set column (some v) := by
  obtain ⟨t2, r2, l2⟩ := out
  unfold _handle_date at h
  rcases h1 : _scan text "-0123456789".toList lino with e | ⟨text1, found, lino1⟩
  · simp only [h1] at h
    exact Except.noConfusion h
  · simp only [h1] at h
    rcases h2 : dateFromIso found with _ | x
    · simp only [h2] at h
      exact Except.noConfusion h
    · simp only [h2, Except.ok.injEq, Prod.mk.injEq] at h
      exact ⟨_, h.2.1.symm⟩

theorem handle_datetime_shape {text : List Char} {r : List (Option Value)}
    {column lino : Nat} {out : List Char × List (Option Value) × Nat}
    (h : _handle_datetime text r column lino = .ok out) :
    ∃ v, out.2.1 = r.set column (some v) := by
  obtain ⟨t2, r2, l2⟩ := out
  unfold _handle_datetime at h
  rcases h1 : _scan text "-0123456789T:".toList lino with e | ⟨text1, found, lino1⟩
  · simp only [h1] at h
    exact Except.noConfusion h
  · simp only [h1] at h
    rcases h2 : datetimeFromIso found with _ | x
    · simp only [h2] at h
      exact Except.noConfusion h
    · simp only [h2, Except.ok.injEq, Prod.mk.injEq] at h
      exact ⟨_, h.2.1.symm⟩

theorem inFlight_set {r : List (Option Value)} {cols column : Nat} (v : Value)
    (hlen : r.length = cols) (hcol : column < cols)
    (hinv : ∀ i < column, ∃ w, r.get? i = some (some w)) :
    (r.set column (some v)).length = cols ∧
      ∀ i < column + 1, ∃ w, (r.set column (some v)).get? i = some (some w) := by
  refine ⟨by rw [List.length_set]; exact hlen, ?_⟩
  intro i hi
  rcases Nat.lt_or_ge i column with hlt | hge
  · obtain ⟨w, hw⟩ := hinv i hlt
    refine ⟨w, ?_⟩
    rw [List.get?_set_of_lt' (some v) r (by rw [hlen]; exact hcol),
      if_neg (Nat.ne_of_gt hlt)]
    exact hw
  · have hic : i = column := Nat.le_antisymm (Nat.lt_succ_iff.1 hi) hge
    subst hic
    exact ⟨v, by rw [List.get?_set_of_lt' (some v) r (by rw [hlen]; exact hcol), if_pos rfl]⟩

theorem complete_of_inflight {r : List (Option Value)} {cols : Nat}
    (hlen : r.length = cols)
    (hall : ∀ i < cols, ∃ w, r.get? i = some (some w)) :
    ∀ o ∈ r, o.isSome := by
  intro o ho
  obtain ⟨i, hi, hget⟩ := List.mem_iff_getElem.1 ho
  obtain ⟨w, hw⟩ := hall i (hlen ▸ hi)
  have hgo : r.get? i = some o := by
    rw [List.get?_eq_getElem?, List.getElem?_eq_getElem hi, hget]
  rw [hgo] at hw
  obtain rfl : o = some w := Option.some.injEq .. ▸ hw.symm ▸ rfl
  rfl

theorem append_complete {table : Table} {r : List (Option Value)}
    (hcomp : recordComplete table) (hlen : r.length = table.columns)
    (hall : ∀ o ∈ r, o.isSome) : recordComplete (table.append r) := by
  intro s hs
  rcases List.mem_append.1 hs with hold | hnew
  · exact hcomp s hold
  · obtain rfl := List.mem_singleton.1 hnew
    exact ⟨hlen, hall⟩

theorem fin_ok {table : Table} {record : List (Option Value)} {column : Nat} (v : Value)
    (text2 : List Char) (lino2 : Nat)
    (hcomp : recordComplete table) (hlen : record.length = table.columns)
    (hcol : column < table.columns)
    (hinv : ∀ i < column, ∃ w, record.get? i = some (some w)) :
    scanOutOk (if column + 1 = table.columns then
        ScanOut.more text2 (table.append (record.set column (some v))) none (column + 1) lino2
      else ScanOut.more text2 table (some (record.set column (some v))) (column + 1) lino2) := by
  obtain ⟨hlen2, hinv2⟩ := inFlight_set v hlen hcol hinv
  by_cases hc : column + 1 = table.columns
  · rw [if_pos hc]
    refine ⟨append_complete hcomp hlen2 ?_, trivial⟩
    exact complete_of_inflight hlen2 (by rw [← hc]; exact hinv2)
  · rw [if_neg hc]
    exact ⟨hcomp, hlen2, hinv2⟩

theorem dispatchChar_inv {c : Char} {rest : List Char} {table : Table}
    {record : List (Option Value)} {column lino : Nat} {out : ScanOut}
    (h : dispatchChar c rest table record column lino = .ok out)
    (hcomp : recordComplete table)
    (hlen : record.length = table.columns)
    (hinv : ∀ i < column, ∃ w, record.get? i = some (some w)) :
    scanOutOk out := by
  unfold dispatchChar at h
  rcases hmf : table.fields_meta.get? column with _ | mf
  · simp only [hmf] at h
    exact Except.noConfusion h
  · simp only [hmf] at h
    have hcol : column < table.columns := by
      rcases Nat.lt_or_ge column table.fields_meta.length with hlt | hge
      · exact hlt
      · rw [List.get?_eq_none.2 hge] at hmf
        exact Option.noConfusion hmf
    by_cases hnl : c = '\n'
    · rw [if_pos hnl, if_neg (Nat.ne_of_lt hcol)] at h
      injection h with h2
      exact h2 ▸ ⟨hcomp, hlen, hinv⟩
    · rw [if_neg hnl] at h
      by_cases hws : c = ' ' ∨ c = '\t' ∨ c = '\r'
      · rw [if_pos hws, if_neg (Nat.ne_of_lt hcol)] at h
        injection h with h2
        exact h2 ▸ ⟨hcomp, hlen, hinv⟩
      · rw [if_neg hws] at h
        by_cases hex : c = '!'
        · rw [if_pos hex] at h
          rcases hX : _handle_sentinel mf.kind record column lino with e | r2
          · simp only [hX] at h
            exact Except.noConfusion h
          · simp only [hX] at h
            obtain ⟨v, rfl⟩ := handle_sentinel_shape hX
            injection h with h2
            exact h2 ▸ fin_ok v rest lino hcomp hlen hcol hinv
        · rw [if_neg hex] at h
          by_cases hF : ['F', 'f', 'N', 'n'].contains c
          · rw [if_pos hF] at h
            rcases hX : _handle_bool mf.kind false record column lino with e | r2
            · simp only [hX] at h
              exact Except.noConfusion h
            · simp only [hX] at h
              obtain ⟨v, rfl⟩ := handle_bool_shape hX
              injection h with h2
              exact h2 ▸ fin_ok v rest lino hcomp hlen hcol hinv
          · rw [if_neg hF] at h
            by_cases hT : ['T', 't', 'Y', 'y'].contains c
            · rw [if_pos hT] at h
              rcases hX : _handle_bool mf.kind true record column lino with e | r2
              · simp only [hX] at h
                exact Except.noConfusion h
              · simp only [hX] at h
                obtain ⟨v, rfl⟩ := handle_bool_shape hX
                injection h with h2
                exact h2 ▸ fin_ok v rest lino hcomp hlen hcol hinv
            · rw [if_neg hT] at h
              by_cases hpar : c = '('
              · rw [if_pos hpar] at h
                rcases hX : _handle_bytes mf.kind rest record column lino with e | ⟨text2, r2, lino2⟩
                · simp only [hX] at h
                  exact Except.noConfusion h
                · simp only [hX] at h
                  obtain ⟨v, hv⟩ := handle_bytes_shape hX
                  simp only at hv
                  subst hv
                  injection h with h2
                  exact h2 ▸ fin_ok v text2 lino2 hcomp hlen hcol hinv
              · rw [if_neg hpar] at h
                by_cases hlt : c = '<'
                · rw [if_pos hlt] at h
                  rcases hX : _handle_str mf.kind rest record column lino with e | ⟨text2, r2, lino2⟩
                  · simp only [hX] at h
                    exact Except.noConfusion h
                  · simp only [hX] at h
                    obtain ⟨v, hv⟩ := handle_str_shape hX
                    simp only at hv
                    subst hv
                    injection h with h2
                    exact h2 ▸ fin_ok v text2 lino2 hcomp hlen hcol hinv
                · rw [if_neg hlt] at h
                  by_cases hdash : c = '-'
                  · rw [if_pos hdash] at h
                    by_cases hki : mf.kind = "int"
                    · rw [if_pos hki] at h
                      rcases hX : _handle_int (c :: rest) record column lino with e | ⟨text2, r2, lino2⟩
                      · simp only [hX] at h
                        exact Except.noConfusion h
                      · simp only [hX] at h
                        obtain ⟨v, hv⟩ := handle_int_shape hX
                        simp only at hv
                        subst hv
                        injection h with h2
                        exact h2 ▸ fin_ok v text2 lino2 hcomp hlen hcol hinv
                    · rw [if_neg hki] at h
                      by_cases hkr : mf.kind = "real"
                      · rw [if_pos hkr] at h
                        rcases hX : _handle_real (c :: rest) record column lino with e | ⟨text2, r2, lino2⟩
                        · simp only [hX] at h
                          exact Except.noConfusion h
                        · simp only [hX] at h
                          obtain ⟨v, hv⟩ := handle_real_shape hX
                          simp only at hv
                          subst hv
                          injection h with h2
                          exact h2 ▸ fin_ok v text2 lino2 hcomp hlen hcol hinv
                      · rw [if_neg hkr] at h
                        exact Except.noConfusion h
                  · rw [if_neg hdash] at h
                    by_cases hdig : "0123456789".toList.contains c
                    · rw [if_pos hdig] at h
                      by_cases hki : mf.kind = "int"
                      · rw [if_pos hki] at h
                        rcases hX : _handle_int (c :: rest) record column lino with e | ⟨text2, r2, lino2⟩
                        · simp only [hX] at h
                          exact Except.noConfusion h
                        · simp only [hX] at h
                          obtain ⟨v, hv⟩ := handle_int_shape hX
                          simp only at hv
                          subst hv
                          injection h with h2
                          exact h2 ▸ fin_ok v text2 lino2 hcomp hlen hcol hinv
                      · rw [if_neg hki] at h
                        by_cases hkr : mf.kind = "real"
                        · rw [if_pos hkr] at h
                          rcases hX : _handle_real (c :: rest) record column lino with e | ⟨text2, r2, lino2⟩
                          · simp only [hX] at h
                            exact Except.noConfusion h
                          · simp only [hX] at h
                            obtain ⟨v, hv⟩ := handle_real_shape hX
                            simp only at hv
                            subst hv
                            injection h with h2
                            exact h2 ▸ fin_ok v text2 lino2 hcomp hlen hcol hinv
                        · rw [if_neg hkr] at h
                          by_cases hkd : mf.kind = "date"
                          · rw [if_pos hkd] at h
                            rcases hX : _handle_date (c :: rest) record column lino with e | ⟨text2, r2, lino2⟩
                            · simp only [hX] at h
                              exact Except.noConfusion h
                            · simp only [hX] at h
                              obtain ⟨v, hv⟩ := handle_date_shape hX
                              simp only at hv
                              subst hv
                              injection h with h2
                              exact h2 ▸ fin_ok v text2 lino2 hcomp hlen hcol hinv
                          · rw [if_neg hkd] at h
                            by_cases hkt : mf.kind = "datetime"
                            · rw [if_pos hkt] at h
                              rcases hX : _handle_datetime (c :: rest) record column lino with e | ⟨text2, r2, lino2⟩
                              · simp only [hX] at h
                                exact Except.noConfusion h
                              · simp only [hX] at h
                                obtain ⟨v, hv⟩ := handle_datetime_shape hX
                                simp only at hv
                                subst hv
                                injection h with h2
                                exact h2 ▸ fin_ok v text2 lino2 hcomp hlen hcol hinv
                            · rw [if_neg hkt] at h
                              exact Except.noConfusion h
                    · rw [if_neg hdig] at h
                      by_cases hsq : c = ']'
                      · rw [if_pos hsq] at h
                        by_cases hincompl : 0 < column ∧ column < table.columns
                        · rw [if_pos hincompl] at h
                          exact Except.noConfusion h
                        · rw [if_neg hincompl] at h
                          rcases hsw : _skip_ws rest lino with ⟨text2, lino2⟩
                          simp only [hsw] at h
                          injection h with h2
                          exact h2 ▸ hcomp
                      · rw [if_neg hsq] at h
                        exact Except.noConfusion h

theorem recScanStep_inv {c : Char} {rest : List Char} {table : Table}
    {record? : Option (List (Option Value))} {column lino : Nat} {out : ScanOut}
    (h : recScanStep c rest table record? column lino = .ok out)
    (hcomp : recordComplete table) (hfl : inFlight table record? column) :
    scanOutOk out := by
  unfold recScanStep at h
  rcases record? with _ | r
  · rcases hn : table.name with _ | nm
    · simp only [hn] at h
      exact Except.noConfusion h
    · simp only [hn] at h
      exact dispatchChar_inv h hcomp (List.length_replicate ..)
        (fun i hi => absurd hi (Nat.not_lt_zero i))
  · exact dispatchChar_inv h hcomp hfl.1 hfl.2

theorem readRecordsAux_inv : ∀ {fuel : Nat} {text : List Char} {table : Table}
    {record? : Option (List (Option Value))} {column lino : Nat}
    {out : List Char × Table × Nat},
    readRecordsAux fuel text table record? column lino = .ok out →
    recordComplete table → inFlight table record? column →
    recordComplete out.2.1 := by
  intro fuel
  induction fuel with
  | zero =>
    intro text table record? column lino out h hcomp hfl
    exact Except.noConfusion h
  | succ fuel ih =>
    intro text table record? column lino out h hcomp hfl
    cases text with
    | nil =>
      simp only [readRecordsAux] at h
      injection h with h2
      exact h2 ▸ hcomp
    | cons c rest =>
      simp only [readRecordsAux] at h
      rcases hstep : recScanStep c rest table record? column lino with e | sout
      · simp only [hstep] at h
        exact Except.noConfusion h
      · simp only [hstep] at h
        have hok := recScanStep_inv hstep hcomp hfl
        cases sout with
        | done a b c2 =>
          injection h with h2
          exact h2 ▸ hok
        | more text2 t2 r2 c2 lino2 =>
          exact ih h hok.1 hok.2

theorem insertTable_pres {tables : List Table} {t : Table} {P : Table → Prop}
    (hall : ∀ u ∈ tables, P u) (ht : P t) : ∀ u ∈ insertTable tables t, P u := by
  intro u hu
  unfold insertTable at hu
  split at hu
  · rcases List.mem_map.1 hu with ⟨x, hx, hxu⟩
    by_cases hb : x.name == t.name
    · rw [if_pos hb] at hxu
      exact hxu ▸ ht
    · rw [if_neg hb] at hxu
      exact hxu ▸ hall x hx
  · rcases List.mem_append.1 hu with hx | hx
    · exact hall u hx
    · obtain rfl := List.mem_singleton.1 hx
      exact ht

theorem read_meta_records {text : List Char} {lino : Nat}
    {out : List Char × Table × Nat}
    (h : _read_meta text lino = .ok out) : out.2.1.records = [] := by
  obtain ⟨a, t, l⟩ := out
  unfold _read_meta _find at h
  rcases hf : findSplit text '%' with _ | ⟨pre, post⟩
  · simp only [hf] at h
    exact Except.noConfusion h
  · simp only [hf, Except.ok.injEq, Prod.mk.injEq] at h
    rw [← h.2.1]

theorem readTdbAux_inv : ∀ {fuel : Nat} {text : List Char} {tables : List Table}
    {table? : Option Table} {lino : Nat} {res : List Table},
    readTdbAux fuel text tables table? lino = .ok res →
    (∀ t ∈ tables, recordComplete t) →
    (∀ t, table? = some t → recordComplete t) →
    ∀ t ∈ res, recordComplete t := by
  intro fuel
  induction fuel with
  | zero =>
    intro text tables table? lino res h hts hcur
    exact Except.noConfusion h
  | succ fuel ih =>
    intro text tables table? lino res h hts hcur
    cases text with
    | nil =>
      simp only [readTdbAux] at h
      injection h with h2
      exact h2 ▸ hts
    | cons c rest =>
      simp only [readTdbAux] at h
      by_cases hnl : c = '\n'
      · rw [if_pos hnl] at h
        exact ih h hts hcur
      · rw [if_neg hnl] at h
        by_cases hbr : c = '['
        · rw [if_pos hbr] at h
          rcases hm : _read_meta rest lino with e | ⟨text2, t, lino2⟩
          · simp only [hm] at h
            exact Except.noConfusion h
          · simp only [hm] at h
            have htc : recordComplete t := by
              have := read_meta_records hm
              simp only at this
              intro r hr
              rw [this] at hr
              exact absurd hr (List.not_mem_nil r)
            refine ih h (insertTable_pres hts htc) ?_
            intro t' ht'
            injection ht' with ht2
            exact ht2 ▸ htc
        · rw [if_neg hbr] at h
          rcases table? with _ | t
          · exact Except.noConfusion h
          · rcases hr : _read_records (c :: rest) t lino with e | ⟨text2, t2, lino2⟩
            · simp only [hr] at h
              exact Except.noConfusion h
            · simp only [hr] at h
              have ht2 : recordComplete t2 := by
                have h3 : recordComplete ((text2, t2, lino2) :
                    List Char × Table × Nat).2.1 :=
                  readRecordsAux_inv hr (hcur t rfl) trivial
                exact h3
              refine ih h (insertTable_pres hts ht2) ?_
              intro t' ht'
              injection ht' with ht3
              exact ht3 ▸ ht2

theorem read_tdb_complete {text : List Char} {res : List Table}
    (h : _read_tdb text = .ok res) : ∀ t ∈ res, recordComplete t := by
  unfold _read_tdb at h
  exact readTdbAux_inv h (fun t ht => absurd ht (List.not_mem_nil t))
    (fun t ht => Option.noConfusion ht)

theorem scanStep_close_incomplete (rest : List Char) (table : Table)
    (r : List (Option Value)) (column lino : Nat)
    (h0 : 0 < column) (hlt : column < table.columns) :
    recScanStep ']' rest table (some r) column lino =
      .error (.tdbError (toString lino ++ "#incomplete record " ++ toString (column + 1)
        ++ "/" ++ toString table.columns ++ " fields")) := by
  have hmf : table.fields_meta.get? column =
      some (table.fields_meta.get ⟨column, hlt⟩) := List.get?_eq_get hlt
  simp only [recScanStep, dispatchChar, hmf]
  rw [if_neg (show ¬((']' : Char) = '\n') by decide),
    if_neg (show ¬((']' : Char) = ' ' ∨ (']' : Char) = '\t' ∨ (']' : Char) = '\r') by decide),
    if_neg (show ¬((']' : Char) = '!') by decide),
    if_neg (show ¬(['F', 'f', 'N', 'n'].contains ']' = true) by decide),
    if_neg (show ¬(['T', 't', 'Y', 'y'].contains ']' = true) by decide),
    if_neg (show ¬((']' : Char) = '(') by decide),
    if_neg (show ¬((']' : Char) = '<') by decide),
    if_neg (show ¬((']' : Char) = '-') by decide),
    if_neg (show ¬("0123456789".toList.contains ']' = true) by decide),
    if_pos (trivial : True),
    if_pos (And.intro h0 hlt)]

theorem scanStep_close_complete (rest : List Char) (table : Table)
    (r : List (Option Value)) (lino : Nat) (hpos : 0 < table.columns) :
    recScanStep ']' rest table (some r) 0 lino =
      .ok (.done (_skip_ws rest lino).1 table (_skip_ws rest lino).2) := by
  have hmf : table.fields_meta.get? 0 =
      some (table.fields_meta.get ⟨0, hpos⟩) := List.get?_eq_get hpos
  simp only [recScanStep, dispatchChar, hmf]
  rw [if_neg (show ¬((']' : Char) = '\n') by decide),
    if_neg (show ¬((']' : Char) = ' ' ∨ (']' : Char) = '\t' ∨ (']' : Char) = '\r') by decide),
    if_neg (show ¬((']' : Char) = '!') by decide),
    if_neg (show ¬(['F', 'f', 'N', 'n'].contains ']' = true) by decide),
    if_neg (show ¬(['T', 't', 'Y', 'y'].contains ']' = true) by decide),
    if_neg (show ¬((']' : Char) = '(') by decide),
    if_neg (show ¬((']' : Char) = '<') by decide),
    if_neg (show ¬((']' : Char) = '-') by decide),
    if_neg (show ¬("0123456789".toList.contains ']' = true) by decide),
    if_pos (trivial : True),
    if_neg (show ¬(0 < 0 ∧ 0 < table.columns) from fun hc => Nat.lt_irrefl 0 hc.1)]

theorem scanStep_dash (rest : List Char) (table : Table) (r : List (Option Value))
    (column lino : Nat) (mf : MetaField)
    (hmf : table.fields_meta.get? column = some mf)
    (hki : mf.kind ≠ "int") (hkr : mf.kind ≠ "real") :
    recScanStep '-' rest table (some r) column lino =
      .error (.tdbError (toString lino ++ "#expected an " ++ mf.kind)) := by
  simp only [recScanStep, dispatchChar, hmf]
  rw [if_neg (show ¬(('-' : Char) = '\n') by decide),
    if_neg (show ¬(('-' : Char) = ' ' ∨ ('-' : Char) = '\t' ∨ ('-' : Char) = '\r') by decide),
    if_neg (show ¬(('-' : Char) = '!') by decide),
    if_neg (show ¬(['F', 'f', 'N', 'n'].contains '-' = true) by decide),
    if_neg (show ¬(['T', 't', 'Y', 'y'].contains '-' = true) by decide),
    if_neg (show ¬(('-' : Char) = '(') by decide),
    if_neg (show ¬(('-' : Char) = '<') by decide),
    if_pos (trivial : True),
    if_neg hki, if_neg hkr]

theorem scanStep_bang (rest : List Char) (table : Table) (r : List (Option Value))
    (column lino : Nat) (mf : MetaField)
    (hmf : table.fields_meta.get? column = some mf) :
    recScanStep '!' rest table (some r) column lino =
      (match _handle_sentinel mf.kind r column lino with
       | .error e => .error e
       | .ok r2 =>
         .ok (if column + 1 = table.columns then
            ScanOut.more rest (table.append r2) none (column + 1) lino
          else ScanOut.more rest table (some r2) (column + 1) lino)) := by
  simp only [recScanStep, dispatchChar, hmf]
  rw [if_neg (show ¬(('!' : Char) = '\n') by decide),
    if_neg (show ¬(('!' : Char) = ' ' ∨ ('!' : Char) = '\t' ∨ ('!' : Char) = '\r') by decide),
    if_pos (trivial : True)]

theorem pairFields_length : ∀ parts : List String,
    (pairFields parts).length = parts.length / 2
  | [] => rfl
  | [_] => by
    show (0 : Nat) = 1 / 2
    rfl
  | _ :: _ :: rest => by
    simp only [pairFields, List.length_cons]
    rw [pairFields_length rest]
    omega

theorem realSentParse :
    decimalRat (-1) "1808080808".toList "0808".toList 0 = REAL_SENTINAL := by
  have h1 : digitsToNat "1808080808".toList = 1808080808 := rfl
  have h2 : digitsToNat "0808".toList = 808 := rfl
  have h3 : ("0808".toList).length = 4 := rfl
  rw [decimalRat, h1, h2, h3]
  norm_num [REAL_SENTINAL]

/-- C1: the writer is a stub, so serialize-then-parse cannot reproduce a
database: parsing the round-trip example text succeeds, but `dumps` on the
resulting database raises `TypeError` (the `decimals` argument is passed
positionally), and the underlying `_write_tdb` emits empty text rather than
the header and record lines. -/
theorem c1_writer_stub_no_roundtrip :
    loads "[Records AField int\n%\n2\n3\n5\n]\n" =
      .ok ⟨[⟨some "Records", [⟨"AField", "int"⟩],
        [[some (Value.int 2)], [some (Value.int 3)], [some (Value.int 5)]]⟩]⟩ ∧
    Tdb.dumps ⟨[⟨some "Records", [⟨"AField", "int"⟩],
        [[some (Value.int 2)], [some (Value.int 3)], [some (Value.int 5)]]⟩]⟩ (-1) =
      .error (.typeError "Tdb.dump() takes 2 positional arguments but 3 were given") ∧
    _write_tdb [⟨some "Records", [⟨"AField", "int"⟩],
        [[some (Value.int 2)], [some (Value.int 3)], [some (Value.int 5)]]⟩] (-1) = "" :=
  ⟨rfl, rfl, rfl⟩

/-- C2: parsing `[Recs Ok bool\n%\nT f y N 1 0]` does not succeed with six
boolean records: the scanner's digit branch rejects `1` in a `bool` column
with the type-mismatch error (contradicting the repository's `test_02`). -/
theorem c2_bool_digits_rejected :
    loads "[Recs Ok bool\n%\nT f y N 1 0]" = .error (.tdbError "4#expected an bool") :=
  rfl

/-- C3 counterexample: on lookahead `-` with a `date` column the scanner does
not scan and convert a date token; it fails immediately with the
`expected an date` dispatch error, not an invalid-date conversion error. -/
theorem c3_dash_date_counterexample :
    loads "[T A date\n%\n-1808-08-08]" = .error (.tdbError "4#expected an date") :=
  rfl

/-- C3 (amended): when the record scanner's lookahead is `-`, only the kinds
`int` and `real` are dispatched to a scan-and-convert handler; for every
other kind of the current column — `date` and `datetime` included — the
scanner raises the `expected an <kind>` error, so `-` is a valid first
character only for `int` and `real`. -/
theorem c3_dash_dispatch_amended (rest : List Char) (table : Table)
    (r : List (Option Value)) (column lino : Nat) (mf : MetaField)
    (hmf : table.fields_meta.get? column = some mf)
    (hki : mf.kind ≠ "int") (hkr : mf.kind ≠ "real") :
    recScanStep '-' rest table (some r) column lino =
      .error (.tdbError (toString lino ++ "#expected an " ++ mf.kind)) :=
  scanStep_dash rest table r column lino mf hmf hki hkr

theorem c3_dash_dispatch_amended_witness :
    recScanStep '-' [] ⟨some "T", [⟨"A", "date"⟩], []⟩ (some [none]) 0 7 =
      .error (.tdbError "7#expected an date") := by
  have h := c3_dash_dispatch_amended [] ⟨some "T", [⟨"A", "date"⟩], []⟩ [none] 0 7
    ⟨"A", "date"⟩ rfl (by decide) (by decide)
  exact h

/-- C4: parse failures do carry a line number and a message through the single
library error type, but the message shape is `<line>#<message>` with no
leading error code: the bool type-mismatch example produces exactly
`4#expected an bool`, which does not begin with `E100#` (or any `E` code),
contradicting the repository's `test_e100`/`test_e105`. -/
theorem c4_error_message_has_no_code :
    loads "[T A bool\n%\n-3]" = .error (.tdbError "4#expected an bool") ∧
    "4#expected an bool".toList.take 5 ≠ "E100#".toList ∧
    "4#expected an bool".toList.head? = some '4' :=
  ⟨rfl, by decide, rfl⟩

/-- C5: `Tdb.dumps` never returns the serialized text: for every database and
every `decimals`, the call `self.dump(stream, decimals)` inside `dumps`
passes `decimals` positionally to the keyword-only parameter and raises
`TypeError` before anything is written. -/
theorem c5_dumps_always_raises (db : Tdb) (decimals : Int) :
    Tdb.dumps db decimals =
      .error (.typeError "Tdb.dump() takes 2 positional arguments but 3 were given") :=
  rfl

/-- C6: closing a table at a column strictly between 0 and the column count is
the incomplete-record error; closing at column 0 succeeds and returns the
remaining text (whitespace-skipped); and every record of every table of a
fully parsed database has length equal to the table's column count, with
every slot assigned. -/
theorem c6_record_width_enforced :
    (∀ (rest : List Char) (table : Table) (r : List (Option Value)) (column lino : Nat),
      0 < column → column < table.columns →
      recScanStep ']' rest table (some r) column lino =
        .error (.tdbError (toString lino ++ "#incomplete record " ++ toString (column + 1)
          ++ "/" ++ toString table.columns ++ " fields"))) ∧
    (∀ (rest : List Char) (table : Table) (r : List (Option Value)) (lino : Nat),
      0 < table.columns →
      recScanStep ']' rest table (some r) 0 lino =
        .ok (.done (_skip_ws rest lino).1 table (_skip_ws rest lino).2)) ∧
    (∀ (text : List Char) (res : List Table), _read_tdb text = .ok res →
      ∀ t ∈ res, ∀ rec ∈ t.records, rec.length = t.columns ∧ ∀ o ∈ rec, o.isSome) :=
  ⟨scanStep_close_incomplete,
   scanStep_close_complete,
   fun _ _ h t ht rec hrec => read_tdb_complete h t ht rec hrec⟩

theorem c6_record_width_enforced_witness :
    recScanStep ']' [] ⟨some "T", [⟨"A", "int"⟩, ⟨"B", "int"⟩], []⟩
        (some [some (Value.int 1), none]) 1 5 =
      .error (.tdbError "5#incomplete record 2/2 fields") ∧
    recScanStep ']' ['\n'] ⟨some "T", [⟨"A", "int"⟩], []⟩ (some [none]) 0 5 =
      .ok (.done [] ⟨some "T", [⟨"A", "int"⟩], []⟩ 6) ∧
    ∀ rec ∈ ([[some (Value.int 7)]] : List (List (Option Value))), rec.length = 1 := by
  refine ⟨?_, ?_, ?_⟩
  · exact c6_record_width_enforced.1 [] ⟨some "T", [⟨"A", "int"⟩, ⟨"B", "int"⟩], []⟩
      [some (Value.int 1), none] 1 5 (by decide) (by decide)
  · exact c6_record_width_enforced.2.1 ['\n'] ⟨some "T", [⟨"A", "int"⟩], []⟩ [none] 5
      (by decide)
  · intro rec hrec
    exact (c6_record_width_enforced.2.2 "[T A int\n%\n7 ]".toList
      [⟨some "T", [⟨"A", "int"⟩], [[some (Value.int 7)]]⟩] rfl
      ⟨some "T", [⟨"A", "int"⟩], [[some (Value.int 7)]]⟩ (List.mem_singleton.2 rfl)
      rec hrec).1

/-- C7: on lookahead `!`, a `bool` column raises the sentinel-rejection
error, while each of the other six kinds stores its fixed sentinel constant
at the current column and advances the column index by one (appending the
record when the table's width is reached). -/
theorem c7_sentinel_dispatch (rest : List Char) (table : Table)
    (r : List (Option Value)) (column lino : Nat) (mf : MetaField)
    (hmf : table.fields_meta.get? column = some mf) :
    (mf.kind = "bool" → recScanStep '!' rest table (some r) column lino =
      .error (.tdbError (toString lino ++ "#bool fields don\x27t allow sentinals"))) ∧
    (mf.kind = "bytes" → recScanStep '!' rest table (some r) column lino =
      .ok (if column + 1 = table.columns then
          ScanOut.more rest
            (table.append (r.set column (some (Value.bytes BYTES_SENTINAL)))) none
            (column + 1) lino
        else ScanOut.more rest table
          (some (r.set column (some (Value.bytes BYTES_SENTINAL)))) (column + 1) lino)) ∧
    (mf.kind = "date" → recScanStep '!' rest table (some r) column lino =
      .ok (if column + 1 = table.columns then
          ScanOut.more rest
            (table.append (r.set column (some (Value.date DATE_SENTINAL)))) none
            (column + 1) lino
        else ScanOut.more rest table
          (some (r.set column (some (Value.date DATE_SENTINAL)))) (column + 1) lino)) ∧
    (mf.kind = "datetime" → recScanStep '!' rest table (some r) column lino =
      .ok (if column + 1 = table.columns then
          ScanOut.more rest
            (table.append (r.set column (some (Value.datetime DATETIME_SENTINAL)))) none
            (column + 1) lino
        else ScanOut.more rest table
          (some (r.set column (some (Value.datetime DATETIME_SENTINAL)))) (column + 1) lino)) ∧
    (mf.kind = "int" → recScanStep '!' rest table (some r) column lino =
      .ok (if column + 1 = table.columns then
          ScanOut.more rest
            (table.append (r.set column (some (Value.int INT_SENTINAL)))) none
            (column + 1) lino
        else ScanOut.more rest table
          (some (r.set column (some (Value.int INT_SENTINAL)))) (column + 1) lino)) ∧
    (mf.kind = "real" → recScanStep '!' rest table (some r) column lino =
      .ok (if column + 1 = table.columns then
          ScanOut.more rest
            (table.append (r.set column (some (Value.real REAL_SENTINAL)))) none
            (column + 1) lino
        else ScanOut.more rest table
          (some (r.set column (some (Value.real REAL_SENTINAL)))) (column + 1) lino)) ∧
    (mf.kind = "str" → recScanStep '!' rest table (some r) column lino =
      .ok (if column + 1 = table.columns then
          ScanOut.more rest
            (table.append (r.set column (some (Value.str STR_SENTINAL)))) none
            (column + 1) lino
        else ScanOut.more rest table
          (some (r.set column (some (Value.str STR_SENTINAL)))) (column + 1) lino)) := by
  refine ⟨?_, ?_, ?_, ?_, ?_, ?_, ?_⟩ <;>
    (intro hk; rw [scanStep_bang rest table r column lino mf hmf, hk]; rfl)

theorem c7_sentinel_dispatch_witness :
    recScanStep '!' [] ⟨some "T", [⟨"A", "int"⟩], []⟩ (some [none]) 0 1 =
      .ok (.more [] ⟨some "T", [⟨"A", "int"⟩], [[some (Value.int INT_SENTINAL)]]⟩ none 1 1) ∧
    recScanStep '!' [] ⟨some "B", [⟨"A", "bool"⟩], []⟩ (some [none]) 0 1 =
      .error (.tdbError "1#bool fields don\x27t allow sentinals") := by
  constructor
  · exact (c7_sentinel_dispatch [] ⟨some "T", [⟨"A", "int"⟩], []⟩ [none] 0 1
      ⟨"A", "int"⟩ rfl).2.2.2.2.1 rfl
  · exact (c7_sentinel_dispatch [] ⟨some "B", [⟨"A", "bool"⟩], []⟩ [none] 0 1
      ⟨"A", "bool"⟩ rfl).1 rfl

/-- C8 counterexample: the header parser accepts malformed headers without
error: a trailing unmatched field name (`B`) is silently dropped, and an
unrecognised kind token (`wibble`) is stored without validation. -/
theorem c8_header_accepts_malformed :
    loads "[T A int B\n%\n]" = .ok ⟨[⟨some "T", [⟨"A", "int"⟩], []⟩]⟩ ∧
    loads "[T A wibble\n%\n]" = .ok ⟨[⟨some "T", [⟨"A", "wibble"⟩], []⟩]⟩ :=
  ⟨rfl, rfl⟩

/-- C8 (amended): the meta-header parser performs no validation beyond the
presence of `%`: whenever `%` occurs it succeeds, taking the first
whitespace token as the table name and pairing the remaining tokens, so a
trailing unmatched field name is silently discarded (the field count is the
floor of half the token count) and kind tokens are stored unchecked. -/
theorem c8_header_no_validation_amended :
    (∀ (text : List Char) (lino : Nat) (pre post : List Char),
      findSplit text '%' = some (pre, post) →
      _read_meta text lino =
        .ok (post, ⟨(splitWs pre).head?, pairFields ((splitWs pre).drop 1), []⟩,
          lino + countNl pre + 1)) ∧
    (∀ parts : List String, (pairFields parts).length = parts.length / 2) ∧
    loads "[T A wibble B C\n%\n]" =
      .ok ⟨[⟨some "T", [⟨"A", "wibble"⟩, ⟨"B", "C"⟩], []⟩]⟩ := by
  refine ⟨?_, pairFields_length, rfl⟩
  intro text lino pre post hf
  simp only [_read_meta, _find, hf]

theorem c8_header_no_validation_amended_witness :
    _read_meta "T A int B %]".toList 3 =
      .ok ("]".toList, ⟨some "T", [⟨"A", "int"⟩], []⟩, 4) := by
  exact c8_header_no_validation_amended.1 "T A int B %]".toList 3
    "T A int B ".toList "]".toList rfl

/-- C9 counterexample: input exhausted while a table's records are still
being scanned (no closing `]`) is not an error: the load returns normally
with the records completed so far. -/
theorem c9_unterminated_counterexample :
    loads "[T A int\n%\n1 2 " =
      .ok ⟨[⟨some "T", [⟨"A", "int"⟩], [[some (Value.int 1)], [some (Value.int 2)]]⟩]⟩ :=
  rfl

/-- C9 (amended): end of input terminates both the record scanner and the
top-level loop normally — the scanner returns its table as read so far and
the assembler returns the accumulated tables; no unterminated-table error
exists (only a token cut off mid-scan raises `unexpected end of data`). -/
theorem c9_eof_returns_amended :
    (∀ (fuel : Nat) (table : Table) (record? : Option (List (Option Value)))
        (column lino : Nat),
      readRecordsAux (fuel + 1) [] table record? column lino = .ok ([], table, lino)) ∧
    (∀ (fuel : Nat) (tables : List Table) (table? : Option Table) (lino : Nat),
      readTdbAux (fuel + 1) [] tables table? lino = .ok tables) :=
  ⟨fun _ _ _ _ _ => rfl, fun _ _ _ _ => rfl⟩

/-- C10 counterexample: sentinel constants are reachable by ordinary
parsing: the int literal `-1808080808` parses to a value equal to
`INT_SENTINAL`, and the date literal `1808-08-08` parses to a value equal to
`DATE_SENTINAL`. -/
theorem c10_parsed_sentinels_counterexample :
    loads "[T A int\n%\n-1808080808 ]" =
      .ok ⟨[⟨some "T", [⟨"A", "int"⟩], [[some (Value.int INT_SENTINAL)]]⟩]⟩ ∧
    loads "[T A date\n%\n1808-08-08 ]" =
      .ok ⟨[⟨some "T", [⟨"A", "date"⟩], [[some (Value.date DATE_SENTINAL)]]⟩]⟩ :=
  ⟨rfl, rfl⟩

/-- C10 (amended): no kind's sentinel is out-of-band: for every kind an
ordinary token parses to a value equal to that kind's sentinel constant —
`-1808080808` (int), `1808-08-08` (date), `1808-08-08T08:08:08` (datetime),
`-1808080808.0808` (real), `(04)` (bytes) and an escaped `\x04` character
(str); the scanner accepts them all. -/
theorem c10_sentinels_in_band_amended :
    loads "[T A int\n%\n-1808080808 ]" =
      .ok ⟨[⟨some "T", [⟨"A", "int"⟩], [[some (Value.int INT_SENTINAL)]]⟩]⟩ ∧
    loads "[T A date\n%\n1808-08-08 ]" =
      .ok ⟨[⟨some "T", [⟨"A", "date"⟩], [[some (Value.date DATE_SENTINAL)]]⟩]⟩ ∧
    loads "[T A datetime\n%\n1808-08-08T08:08:08 ]" =
      .ok ⟨[⟨some "T", [⟨"A", "datetime"⟩], [[some (Value.datetime DATETIME_SENTINAL)]]⟩]⟩ ∧
    loads "[T A real\n%\n-1808080808.0808 ]" =
      .ok ⟨[⟨some "T", [⟨"A", "real"⟩], [[some (Value.real REAL_SENTINAL)]]⟩]⟩ ∧
    loads "[T A bytes\n%\n(04) ]" =
      .ok ⟨[⟨some "T", [⟨"A", "bytes"⟩], [[some (Value.bytes BYTES_SENTINAL)]]⟩]⟩ ∧
    loads "[T A str\n%\n<\x04> ]" =
      .ok ⟨[⟨some "T", [⟨"A", "str"⟩], [[some (Value.str STR_SENTINAL)]]⟩]⟩ := by
  refine ⟨rfl, rfl, rfl, ?_, rfl, rfl⟩
  rw [← realSentParse]
  rfl
